import Mathlib

/-!
# Data sources of go-llama.cpp

A shallow embedding of `src/llama_data_source.h` and `src/llama_data_source.cpp`:
the in-memory source `llama_memory_source` and the file-backed source
`llama_file_source`, together with a small model of the C stdio stream the
latter delegates to.

Conventions.
* `size_t` is a natural number below `SIZE_MOD = 2 ^ 64`; every `size_t`
  addition and subtraction of the source is written with an explicit
  reduction modulo `SIZE_MOD` (`size_add`, `size_sub`).
* A byte buffer is a `List uint8_t`; the pointer `data + k` is `data.drop k`.
  The viewed bytes and the caller's buffer are then two lists, that is, two
  regions that do not overlap.  `llama_memory_source_ptr` is the same class
  over one address space, where the destination of a `read` may lie inside
  the viewed bytes.
* A member function that mutates the object returns the new object next to
  its C++ return value.
-/

/-- One byte (`uint8_t`). -/
abbrev uint8_t := Fin 256

/-- Number of values of `size_t` (64-bit targets). -/
def SIZE_MOD : Nat := 2 ^ 64

/-- Number of non-negative values of `long` (64-bit targets). -/
def LONG_MOD : Nat := 2 ^ 63

/-- Unsigned `size_t` addition: wraps modulo `SIZE_MOD`. -/
def size_add (a b : Nat) : Nat := (a + b) % SIZE_MOD

/-- Unsigned `size_t` subtraction: wraps modulo `SIZE_MOD`. -/
def size_sub (a b : Nat) : Nat := (a % SIZE_MOD + SIZE_MOD - b % SIZE_MOD) % SIZE_MOD

/-- Value of `SEEK_SET` in `<cstdio>`. -/
def SEEK_SET : Int := 0

/-- Value of `SEEK_CUR` in `<cstdio>`. -/
def SEEK_CUR : Int := 1

/-- Value of `SEEK_END` in `<cstdio>`. -/
def SEEK_END : Int := 2

/-- The call `memcpy(dst, src, n)`: the first `n` bytes of `dst` are replaced by
the first `n` bytes of `src`, the rest of `dst` is kept. -/
def memcpy (dst src : List uint8_t) (n : Nat) : List uint8_t :=
  src.take n ++ dst.drop n

/-- The class `llama_memory_source`: a borrowed view `data` of `data_size`
bytes and the cursor `current_pos`. -/
structure llama_memory_source where
  data : List uint8_t
  data_size : Nat
  current_pos : Nat
deriving DecidableEq, Repr

/-- What a `read` call leaves behind: the object, the caller's buffer and the
returned count. -/
structure mem_read_result where
  self : llama_memory_source
  buffer : List uint8_t
  ret : Nat
deriving DecidableEq, Repr

namespace llama_memory_source

/-- The constructor `llama_memory_source(buffer, buffer_size)`: stores both
verbatim and sets the cursor to 0. -/
def ctor (buffer : List uint8_t) (buffer_size : Nat) : llama_memory_source :=
  { data := buffer, data_size := buffer_size, current_pos := 0 }

/-- The member `read(buffer, size)`, for a caller's buffer that does not overlap
the viewed bytes. -/
def read (s : llama_memory_source) (buffer : List uint8_t) (size : Nat) : mem_read_result :=
  let bytes_to_read := min size (size_sub s.data_size s.current_pos)
  if bytes_to_read > 0 then
    { self := { s with current_pos := size_add s.current_pos bytes_to_read },
      buffer := memcpy buffer (s.data.drop s.current_pos) bytes_to_read,
      ret := bytes_to_read }
  else
    { self := s, buffer := buffer, ret := bytes_to_read }

/-- The member `seek(offset, whence)`. -/
def seek (s : llama_memory_source) (offset : Nat) (whence : Int) : llama_memory_source :=
  if whence = SEEK_SET then
    { s with current_pos := min offset s.data_size }
  else if whence = SEEK_CUR then
    { s with current_pos := min (size_add s.current_pos offset) s.data_size }
  else if whence = SEEK_END then
    { s with current_pos := if s.data_size > offset then size_sub s.data_size offset else 0 }
  else
    s

/-- The member `tell()`. -/
def tell (s : llama_memory_source) : Nat := s.current_pos

/-- The member `size()`. -/
def size (s : llama_memory_source) : Nat := s.data_size

/-- The member `eof()`. -/
def eof (s : llama_memory_source) : Bool := decide (s.current_pos ≥ s.data_size)

end llama_memory_source

/-- One mutating call on a `llama_memory_source`. -/
inductive mem_call where
  | read (buffer : List uint8_t) (size : Nat)
  | seek (offset : Nat) (whence : Int)
deriving DecidableEq, Repr

/-- The object after one call. -/
def mem_call.apply (s : llama_memory_source) : mem_call → llama_memory_source
  | .read buffer size => (s.read buffer size).self
  | .seek offset whence => s.seek offset whence

/-- The object after a sequence of calls, first call first. -/
def mem_run (s : llama_memory_source) (calls : List mem_call) : llama_memory_source :=
  calls.foldl mem_call.apply s

/-- A source is in a state `ctor` followed by calls produces: the view covers
exactly `data_size` bytes, the size fits `size_t`, the cursor is inside. -/
def mem_valid (s : llama_memory_source) : Prop :=
  s.data.length = s.data_size ∧ s.data_size < SIZE_MOD ∧ s.current_pos ≤ s.data_size

instance (s : llama_memory_source) : Decidable (mem_valid s) := by
  unfold mem_valid; infer_instance

/-! ## The C stream behind `llama_file_source`

`fopen`, `stat`, `fread`, `fseek`, `ftell` and `feof` belong to the C library,
not to the repository.  The stream is modelled after ISO C 7.21 for a regular
file opened for reading: its bytes, the file position indicator and the
end-of-file indicator.  Read errors are not modelled. -/

/-- A stream opened for reading: the file's bytes, the file position indicator
and the end-of-file indicator. -/
structure FILE where
  contents : List uint8_t
  pos : Nat
  eof_ind : Bool
deriving DecidableEq, Repr

/-- What an `fread` call leaves behind. -/
structure fread_result where
  stream : FILE
  buffer : List uint8_t
  ret : Nat
deriving DecidableEq, Repr

/-- The call `fread(buffer, size, nmemb, stream)` (ISO C 7.21.8.1).  When `size`
or `nmemb` is zero it returns zero and leaves the buffer and the stream
unchanged.  Otherwise it transfers the bytes that remain, at most
`size * nmemb`, advances the position by that many, and sets the end-of-file
indicator when the request could not be met in full. -/
def fread (buffer : List uint8_t) (size nmemb : Nat) (stream : FILE) : fread_result :=
  if size = 0 ∨ nmemb = 0 then
    { stream := stream, buffer := buffer, ret := 0 }
  else
    let want := size * nmemb
    let got := min want (stream.contents.length - stream.pos)
    { stream := { stream with pos := stream.pos + got,
                              eof_ind := stream.eof_ind || decide (got < want) },
      buffer := memcpy buffer (stream.contents.drop stream.pos) got,
      ret := got / size }

/-- The call `feof(stream)` (ISO C 7.21.10.2): nonzero exactly when the
end-of-file indicator is set. -/
def feof (stream : FILE) : Int := if stream.eof_ind then 1 else 0

/-- The call `ftell(stream)` (ISO C 7.21.9.4): the file position indicator. -/
def ftell (stream : FILE) : Int := stream.pos

/-- What an `fseek` call leaves behind. -/
structure fseek_result where
  stream : FILE
  ret : Int
deriving DecidableEq, Repr

/-- The call `fseek(stream, offset, whence)` (ISO C 7.21.9.2, POSIX): the new
position is `offset` from the start, the current position or the end; a
negative result or an unknown `whence` fails with -1 and moves nothing; a
successful call clears the end-of-file indicator. -/
def fseek (stream : FILE) (offset : Int) (whence : Int) : fseek_result :=
  let target : Option Int :=
    if whence = SEEK_SET then some offset
    else if whence = SEEK_CUR then some (stream.pos + offset)
    else if whence = SEEK_END then some (stream.contents.length + offset)
    else none
  match target with
  | some t =>
    if t < 0 then { stream := stream, ret := -1 }
    else { stream := { stream with pos := t.toNat, eof_ind := false }, ret := 0 }
  | none => { stream := stream, ret := -1 }

/-- Conversion of a `size_t` argument to `long` (two's complement). -/
def to_long (x : Nat) : Int :=
  if x % SIZE_MOD < LONG_MOD then (x % SIZE_MOD : Nat) else (x % SIZE_MOD : Nat) - (SIZE_MOD : Int)

/-- Conversion of a `long` or `off_t` value to `size_t`. -/
def to_size_t (x : Int) : Nat := (x % (SIZE_MOD : Int)).toNat

/-- The part of the operating system the constructor of `llama_file_source`
talks to: `fopen(filename, mode)` yields a stream or no handle, and
`stat(filename, &st)` yields `st.st_size` or fails. -/
structure libc_env where
  fopen : String → String → Option FILE
  stat : String → Option Int

/-- A C library call made by the constructor, in the order of the calls. -/
inductive libc_call where
  | fopen (filename mode : String)
  | stat (filename : String)
  | fseek (offset whence : Int)
  | ftell
deriving DecidableEq, Repr

/-- The class `llama_file_source`: the stream `fp` and the cached `file_size`. -/
structure llama_file_source where
  fp : FILE
  file_size : Nat
deriving DecidableEq, Repr

/-- What a `read` call on a `llama_file_source` leaves behind. -/
structure file_read_result where
  self : llama_file_source
  buffer : List uint8_t
  ret : Nat
deriving DecidableEq, Repr

namespace llama_file_source

/-- The constructor `llama_file_source(filename)`: the object or the thrown
`std::runtime_error` message, and the library calls made on the way. -/
def ctor (env : libc_env) (filename : String) :
    Except String llama_file_source × List libc_call :=
  match env.fopen filename "rb" with
  | none => (Except.error "Failed to open file", [libc_call.fopen filename "rb"])
  | some fp =>
    match env.stat filename with
    | some st_size =>
      (Except.ok { fp := fp, file_size := to_size_t st_size },
        [libc_call.fopen filename "rb", libc_call.stat filename])
    | none =>
      let fp1 := (fseek fp 0 SEEK_END).stream
      let file_size := to_size_t (ftell fp1)
      let fp2 := (fseek fp1 0 SEEK_SET).stream
      (Except.ok { fp := fp2, file_size := file_size },
        [libc_call.fopen filename "rb", libc_call.stat filename,
          libc_call.fseek 0 SEEK_END, libc_call.ftell, libc_call.fseek 0 SEEK_SET])

/-- The member `read(buffer, size)`. -/
def read (s : llama_file_source) (buffer : List uint8_t) (size : Nat) : file_read_result :=
  let r := fread buffer 1 size s.fp
  { self := { s with fp := r.stream }, buffer := r.buffer, ret := r.ret }

/-- The member `seek(offset, whence)`. -/
def seek (s : llama_file_source) (offset : Nat) (whence : Int) : llama_file_source :=
  { s with fp := (fseek s.fp (to_long offset) whence).stream }

/-- The member `tell()`. -/
def tell (s : llama_file_source) : Nat := to_size_t (ftell s.fp)

/-- The member `size()`. -/
def size (s : llama_file_source) : Nat := s.file_size

/-- The member `eof()`. -/
def eof (s : llama_file_source) : Bool := decide (feof s.fp ≠ 0)

end llama_file_source

/-! ## `llama_memory_source` on addresses

The same class with its member `data` as the pointer it is and the caller's
buffer as an address, over one address space.  Here the destination of a
`read` may lie inside the viewed bytes; the list-level `llama_memory_source`
above describes the case where it does not. -/

/-- The address space: the byte stored at each address. -/
abbrev address_space := Nat → uint8_t

/-- The address space that holds `bytes` from address `base` on and zero
everywhere else. -/
def memory_with (base : Nat) (bytes : List uint8_t) : address_space :=
  fun a => if base ≤ a then bytes.getD (a - base) 0 else 0

/-- The call `memcpy(dst, src, n)` on addresses: the `n` bytes at `dst` become
the `n` bytes that were at `src`, every other byte is kept.  (C defines the
call only when the two ranges do not overlap.) -/
def memcpy_at (m : address_space) (dst src n : Nat) : address_space :=
  fun a => if dst ≤ a ∧ a < dst + n then m (src + (a - dst)) else m a

/-- The class `llama_memory_source` as stored: the pointer `data`, `data_size`
and the cursor `current_pos`. -/
structure llama_memory_source_ptr where
  data : Nat
  data_size : Nat
  current_pos : Nat
deriving DecidableEq, Repr

/-- What a `read` call leaves behind: the address space, the object and the
returned count. -/
structure ptr_read_result where
  memory : address_space
  self : llama_memory_source_ptr
  ret : Nat

/-- An address space together with a source object living in it. -/
structure ptr_state where
  memory : address_space
  self : llama_memory_source_ptr

namespace llama_memory_source_ptr

/-- The constructor `llama_memory_source(buffer, buffer_size)`. -/
def ctor (buffer : Nat) (buffer_size : Nat) : llama_memory_source_ptr :=
  { data := buffer, data_size := buffer_size, current_pos := 0 }

/-- The member `read(buffer, size)`, `buffer` being an address. -/
def read (s : llama_memory_source_ptr) (m : address_space) (buffer : Nat) (size : Nat) :
    ptr_read_result :=
  let bytes_to_read := min size (size_sub s.data_size s.current_pos)
  if bytes_to_read > 0 then
    { memory := memcpy_at m buffer (s.data + s.current_pos) bytes_to_read,
      self := { s with current_pos := size_add s.current_pos bytes_to_read },
      ret := bytes_to_read }
  else
    { memory := m, self := s, ret := bytes_to_read }

/-- The member `seek(offset, whence)`. -/
def seek (s : llama_memory_source_ptr) (offset : Nat) (whence : Int) :
    llama_memory_source_ptr :=
  if whence = SEEK_SET then
    { s with current_pos := min offset s.data_size }
  else if whence = SEEK_CUR then
    { s with current_pos := min (size_add s.current_pos offset) s.data_size }
  else if whence = SEEK_END then
    { s with current_pos := if s.data_size > offset then size_sub s.data_size offset else 0 }
  else
    s

/-- The member `tell()`. -/
def tell (s : llama_memory_source_ptr) : Nat := s.current_pos

/-- The member `size()`. -/
def size (s : llama_memory_source_ptr) : Nat := s.data_size

/-- The member `eof()`. -/
def eof (s : llama_memory_source_ptr) : Bool := decide (s.current_pos ≥ s.data_size)

/-- The viewed bytes: the `data_size` bytes stored from `data` on. -/
def viewed (s : llama_memory_source_ptr) (m : address_space) : List uint8_t :=
  (List.range s.data_size).map (fun i => m (s.data + i))

/-- The list-level object this one stands for in the address space `m`. -/
def to_list_level (s : llama_memory_source_ptr) (m : address_space) : llama_memory_source :=
  { data := s.viewed m, data_size := s.data_size, current_pos := s.current_pos }

end llama_memory_source_ptr

/-! ## Callers of the sources

Call sequences and read loops a consumer runs on a source.  They are built
from the member functions above and add no behaviour of their own. -/

/-- One call of any of the five members of `llama_memory_source`, the
destination of a `read` being an address. -/
inductive ptr_op where
  | read (buffer : Nat) (size : Nat)
  | seek (offset : Nat) (whence : Int)
  | tell
  | size
  | eof
deriving DecidableEq, Repr

/-- The address space and the object after one call of any member: `read` and
`seek` leave what they compute; `tell`, `size` and `eof` are `const` members,
their bodies only return a value, so nothing changes. -/
def ptr_op.apply (st : ptr_state) : ptr_op → ptr_state
  | .read buffer n =>
    { memory := (st.self.read st.memory buffer n).memory,
      self := (st.self.read st.memory buffer n).self }
  | .seek offset whence => { memory := st.memory, self := st.self.seek offset whence }
  | .tell => st
  | .size => st
  | .eof => st

/-- The address space and the object after a sequence of member calls, first
call first. -/
def ptr_op_run (st : ptr_state) (ops : List ptr_op) : ptr_state :=
  ops.foldl ptr_op.apply st

/-- The destination buffer of a call, `size` bytes at `buffer` for a `read`,
does not overlap the `len` bytes at `lo`; calls other than `read` have no
destination. -/
def ptr_op.clear_of (lo len : Nat) : ptr_op → Prop
  | .read buffer n => buffer + n ≤ lo ∨ lo + len ≤ buffer
  | .seek _ _ => True
  | .tell => True
  | .size => True
  | .eof => True

/-- The loop `while ((n = src.read(buf, k)) > 0) { keep (n, buf[0..n)) }` on a
`llama_memory_source`.  The first argument after `k` bounds the number of
`read` calls; `none` means the bound was reached before a read returned 0.
The result lists, per non-empty read, the returned count and the bytes
delivered, and gives the object after the final, empty read. -/
def mem_read_loop (k : Nat) :
    Nat → llama_memory_source → List uint8_t →
      Option (List (Nat × List uint8_t) × llama_memory_source)
  | 0, _, _ => none
  | fuel + 1, s, buf =>
    let r := s.read buf k
    if r.ret = 0 then some ([], r.self)
    else
      match mem_read_loop k fuel r.self r.buffer with
      | none => none
      | some (chunks, t) => some ((r.ret, r.buffer.take r.ret) :: chunks, t)

/-- The loop `while ((n = src.read(buf, sizes(i))) > 0) { keep (n, buf[0..n)); i++ }`
on a `llama_file_source`, the chunk size of the `i`-th read being `sizes i`.
The first argument after `sizes` bounds the number of `read` calls; `none`
means the bound was reached before a read returned 0. -/
def file_read_loop (sizes : Nat → Nat) :
    Nat → Nat → llama_file_source → List uint8_t →
      Option (List (Nat × List uint8_t) × llama_file_source)
  | 0, _, _, _ => none
  | fuel + 1, i, s, buf =>
    let r := s.read buf (sizes i)
    if r.ret = 0 then some ([], r.self)
    else
      match file_read_loop sizes fuel (i + 1) r.self r.buffer with
      | none => none
      | some (chunks, t) => some ((r.ret, r.buffer.take r.ret) :: chunks, t)

/-! ## Arithmetic of `size_t` -/

theorem SIZE_MOD_pos : 0 < SIZE_MOD := by
  unfold SIZE_MOD; positivity

theorem size_sub_exact {a b : Nat} (ha : a < SIZE_MOD) (hb : b ≤ a) :
    size_sub a b = a - b := by
  unfold size_sub
  have hb' : b < SIZE_MOD := lt_of_le_of_lt hb ha
  rw [Nat.mod_eq_of_lt ha, Nat.mod_eq_of_lt hb']
  have h : a + SIZE_MOD - b = (a - b) + SIZE_MOD := by omega
  rw [h, Nat.add_mod_right, Nat.mod_eq_of_lt]
  omega

theorem size_sub_self (a : Nat) : size_sub a a = 0 := by
  unfold size_sub
  have h := Nat.mod_lt a SIZE_MOD_pos
  have h2 : a % SIZE_MOD + SIZE_MOD - a % SIZE_MOD = SIZE_MOD := by omega
  rw [h2, Nat.mod_self]

theorem size_add_exact {a b : Nat} (h : a + b < SIZE_MOD) : size_add a b = a + b := by
  unfold size_add
  exact Nat.mod_eq_of_lt h

/-! ## The cursor invariant of `llama_memory_source` -/

theorem mem_read_bytes {s : llama_memory_source} (h : mem_valid s) (size : Nat) :
    min size (size_sub s.data_size s.current_pos) = min size (s.data_size - s.current_pos) := by
  rw [size_sub_exact h.2.1 h.2.2]

theorem mem_read_self {s : llama_memory_source} (h : mem_valid s) (buffer : List uint8_t)
    (size : Nat) :
    (s.read buffer size).self =
      { s with current_pos := s.current_pos + min size (s.data_size - s.current_pos) } := by
  obtain ⟨_, h2, h3⟩ := h
  unfold llama_memory_source.read
  simp only [size_sub_exact h2 h3]
  by_cases hpos : min size (s.data_size - s.current_pos) > 0
  · rw [if_pos hpos]
    have hlt : s.current_pos + min size (s.data_size - s.current_pos) < SIZE_MOD := by
      have := Nat.min_le_right size (s.data_size - s.current_pos)
      omega
    simp only [size_add_exact hlt]
  · rw [if_neg hpos]
    have h0 : min size (s.data_size - s.current_pos) = 0 := by omega
    rw [h0]
    rfl

theorem mem_read_ret {s : llama_memory_source} (h : mem_valid s) (buffer : List uint8_t)
    (size : Nat) :
    (s.read buffer size).ret = min size (s.data_size - s.current_pos) := by
  unfold llama_memory_source.read
  simp only [size_sub_exact h.2.1 h.2.2]
  split <;> rfl

theorem mem_read_buffer {s : llama_memory_source} (h : mem_valid s) (buffer : List uint8_t)
    (size : Nat) :
    (s.read buffer size).buffer =
      memcpy buffer (s.data.drop s.current_pos) (min size (s.data_size - s.current_pos)) := by
  unfold llama_memory_source.read
  simp only [size_sub_exact h.2.1 h.2.2]
  by_cases hpos : min size (s.data_size - s.current_pos) > 0
  · rw [if_pos hpos]
  · rw [if_neg hpos]
    have h0 : min size (s.data_size - s.current_pos) = 0 := by omega
    rw [h0]
    simp [memcpy]

theorem mem_valid_read {s : llama_memory_source} (h : mem_valid s) (buffer : List uint8_t)
    (size : Nat) : mem_valid (s.read buffer size).self := by
  rw [mem_read_self h]
  obtain ⟨h1, h2, h3⟩ := h
  refine ⟨h1, h2, ?_⟩
  show s.current_pos + min size (s.data_size - s.current_pos) ≤ s.data_size
  have := Nat.min_le_right size (s.data_size - s.current_pos)
  omega

theorem mem_valid_seek {s : llama_memory_source} (h : mem_valid s) (offset : Nat)
    (whence : Int) : mem_valid (s.seek offset whence) := by
  obtain ⟨h1, h2, h3⟩ := h
  unfold llama_memory_source.seek
  split
  · exact ⟨h1, h2, Nat.min_le_right _ _⟩
  · split
    · exact ⟨h1, h2, Nat.min_le_right _ _⟩
    · split
      · refine ⟨h1, h2, ?_⟩
        show (if s.data_size > offset then size_sub s.data_size offset else 0) ≤ s.data_size
        split
        · rename_i hgt
          rw [size_sub_exact h2 (Nat.le_of_lt hgt)]
          exact Nat.sub_le _ _
        · exact Nat.zero_le _
      · exact ⟨h1, h2, h3⟩

theorem mem_valid_ctor (buffer : List uint8_t) (h : buffer.length < SIZE_MOD) :
    mem_valid (llama_memory_source.ctor buffer buffer.length) :=
  ⟨rfl, h, Nat.zero_le _⟩

theorem mem_valid_apply {s : llama_memory_source} (h : mem_valid s) (c : mem_call) :
    mem_valid (mem_call.apply s c) := by
  cases c with
  | read buffer size => exact mem_valid_read h buffer size
  | seek offset whence => exact mem_valid_seek h offset whence

theorem mem_valid_run (calls : List mem_call) :
    ∀ {s : llama_memory_source}, mem_valid s → mem_valid (mem_run s calls) := by
  induction calls with
  | nil => intro s h; exact h
  | cons c cs ih =>
    intro s h
    show mem_valid (mem_run (mem_call.apply s c) cs)
    exact ih (mem_valid_apply h c)

theorem mem_run_append (s : llama_memory_source) (xs ys : List mem_call) :
    mem_run s (xs ++ ys) = mem_run (mem_run s xs) ys := by
  unfold mem_run
  exact List.foldl_append _ _ _ _

/-- C1: a `llama_memory_source` constructed over a buffer of any length that
fits `size_t` keeps `0 <= tell() <= size()` after every call of every finite
sequence of `read` and `seek` calls with arbitrary arguments, and there the
wrapping subtraction `data_size - current_pos` of `read` is the exact
difference (it does not underflow). -/
theorem C1_cursor_invariant (buffer : List uint8_t) (h : buffer.length < SIZE_MOD)
    (calls : List mem_call) (k : Nat) :
    let s := mem_run (llama_memory_source.ctor buffer buffer.length) (calls.take k)
    0 ≤ s.tell ∧ s.tell ≤ s.size ∧
      size_sub s.data_size s.current_pos + s.current_pos = s.data_size := by
  intro s
  have hv : mem_valid s := mem_valid_run _ (mem_valid_ctor buffer h)
  refine ⟨Nat.zero_le _, hv.2.2, ?_⟩
  rw [size_sub_exact hv.2.1 hv.2.2]
  exact Nat.sub_add_cancel hv.2.2

/-- Witness of C1 on the buffer `[0x10, 0x20, 0x30, 0x40]` with a read, a wrapping
current-relative seek, an unknown `whence` and an end-relative seek. -/
theorem C1_cursor_invariant_witness :
    ([0x10, 0x20, 0x30, 0x40] : List uint8_t).length < SIZE_MOD ∧
    (let s := mem_run (llama_memory_source.ctor [0x10, 0x20, 0x30, 0x40]
        ([0x10, 0x20, 0x30, 0x40] : List uint8_t).length)
        (([mem_call.read [] 3, mem_call.seek (2 ^ 64 - 1) SEEK_CUR, mem_call.seek 7 9,
          mem_call.seek 9 SEEK_END] : List mem_call).take 4);
      0 ≤ s.tell ∧ s.tell ≤ s.size ∧
        size_sub s.data_size s.current_pos + s.current_pos = s.data_size) :=
  ⟨by unfold SIZE_MOD; norm_num,
    C1_cursor_invariant [0x10, 0x20, 0x30, 0x40] (by unfold SIZE_MOD; norm_num) _ 4⟩

/-! ## `read` and `seek` of `llama_memory_source` -/

theorem memcpy_take (dst src : List uint8_t) (n : Nat) (h : n ≤ src.length) :
    (memcpy dst src n).take n = src.take n := by
  unfold memcpy
  have hl : (src.take n).length = n := by
    rw [List.length_take]; exact Nat.min_eq_left h
  rw [List.take_append_eq_append_take, hl, Nat.sub_self, List.take_zero, List.append_nil,
    List.take_take, Nat.min_self]

theorem memcpy_zero (dst src : List uint8_t) : memcpy dst src 0 = dst := by
  simp [memcpy]

/-- C2: in a state with cursor `c <= L`, `read(buffer, size)` returns
`n = min(size, L - c)`, the first `n` bytes of the buffer are then exactly
`data[c], ..., data[c+n-1]` in order, and `tell()` is `c + n`; the count is
`size` whenever at least `size` bytes remain and falls short of `size` only
when fewer remain. -/
theorem C2_read_min (s : llama_memory_source) (h : mem_valid s) (buffer : List uint8_t)
    (size : Nat) :
    let r := s.read buffer size
    let n := min size (s.data_size - s.current_pos)
    r.ret = n ∧
      r.buffer.take n = (s.data.drop s.current_pos).take n ∧
      (r.buffer.take n).length = n ∧
      (∀ i, i < n → r.buffer[i]? = s.data[s.current_pos + i]? ∧
        (s.data[s.current_pos + i]?).isSome = true) ∧
      r.self.tell = s.current_pos + n ∧
      (size ≤ s.data_size - s.current_pos → r.ret = size) ∧
      (r.ret < size → s.data_size - s.current_pos < size) := by
  intro r n
  have hret : r.ret = n := mem_read_ret h buffer size
  have hn : n ≤ s.data_size - s.current_pos := Nat.min_le_right _ _
  have hsrc : n ≤ (s.data.drop s.current_pos).length := by
    rw [List.length_drop, h.1]; exact hn
  have hbuf : r.buffer.take n = (s.data.drop s.current_pos).take n := by
    show (s.read buffer size).buffer.take n = _
    rw [mem_read_buffer h]
    exact memcpy_take _ _ _ hsrc
  refine ⟨hret, hbuf, ?_, ?_, ?_, ?_, ?_⟩
  · rw [hbuf, List.length_take]; exact Nat.min_eq_left hsrc
  · intro i hi
    have h1 : r.buffer[i]? = (r.buffer.take n)[i]? := by
      rw [List.getElem?_take]; simp [hi]
    have h2 : ((s.data.drop s.current_pos).take n)[i]? = s.data[s.current_pos + i]? := by
      rw [List.getElem?_take]; simp [hi]
    refine ⟨by rw [h1, hbuf, h2], ?_⟩
    have hlt : s.current_pos + i < s.data.length := by
      rw [h.1]; omega
    rw [List.getElem?_eq_getElem hlt]; rfl
  · show (s.read buffer size).self.current_pos = _
    rw [mem_read_self h]
  · intro hle
    rw [hret]; exact Nat.min_eq_left hle
  · intro hlt
    rw [hret] at hlt
    by_contra hge
    have : n = size := Nat.min_eq_left (by omega)
    omega

/-- Witness of C2: cursor 1 in `[0x10, 0x20, 0x30, 0x40]`, a read of 2 bytes. -/
theorem C2_read_min_witness :
    mem_valid { data := [0x10, 0x20, 0x30, 0x40], data_size := 4, current_pos := 1 } ∧
    (let s : llama_memory_source :=
        { data := [0x10, 0x20, 0x30, 0x40], data_size := 4, current_pos := 1 };
      let r := s.read [0, 0, 0] 2;
      let n := min 2 (s.data_size - s.current_pos);
      r.ret = n ∧
        r.buffer.take n = (s.data.drop s.current_pos).take n ∧
        (r.buffer.take n).length = n ∧
        (∀ i, i < n → r.buffer[i]? = s.data[s.current_pos + i]? ∧
          (s.data[s.current_pos + i]?).isSome = true) ∧
        r.self.tell = s.current_pos + n ∧
        (2 ≤ s.data_size - s.current_pos → r.ret = 2) ∧
        (r.ret < 2 → s.data_size - s.current_pos < 2)) :=
  ⟨by unfold mem_valid SIZE_MOD; norm_num,
    C2_read_min { data := [0x10, 0x20, 0x30, 0x40], data_size := 4, current_pos := 1 }
      (by unfold mem_valid SIZE_MOD; norm_num) [0, 0, 0] 2⟩

/-- C3 (evaluation of the code): on the buffer `[0x10, 0x20, 0x30, 0x40]` with
the cursor at 1, `seek(2^64 - 1, SEEK_CUR)` leaves `tell()` at 0, although the
exact sum `1 + (2^64 - 1)` clamped into `[0, 4]` is 4: the `size_t` addition
wraps and the cursor ends below its previous value. -/
theorem C3_seek_cur_wraps :
    (({ data := [0x10, 0x20, 0x30, 0x40], data_size := 4, current_pos := 1 } :
        llama_memory_source).seek (2 ^ 64 - 1) SEEK_CUR).tell = 0 ∧
      min (1 + (2 ^ 64 - 1)) 4 = 4 ∧
      (2 ^ 64 - 1 < SIZE_MOD) ∧
      mem_valid { data := [0x10, 0x20, 0x30, 0x40], data_size := 4, current_pos := 1 } := by
  refine ⟨?_, by norm_num, by unfold SIZE_MOD; norm_num, by unfold mem_valid SIZE_MOD; norm_num⟩
  simp [llama_memory_source.seek, llama_memory_source.tell, SEEK_SET, SEEK_CUR, size_add,
    SIZE_MOD]

/-- Where the sum `c + offset` fits `size_t`, a current-relative seek sets the
cursor to `min(c + offset, L)` and does not move it backwards. -/
theorem seek_cur_no_wrap (s : llama_memory_source) (h : mem_valid s) (offset : Nat)
    (hfit : s.current_pos + offset < SIZE_MOD) :
    (s.seek offset SEEK_CUR).tell = min (s.current_pos + offset) s.data_size ∧
      s.current_pos ≤ (s.seek offset SEEK_CUR).tell := by
  have hc : (s.seek offset SEEK_CUR).tell = min (s.current_pos + offset) s.data_size := by
    simp [llama_memory_source.seek, llama_memory_source.tell, SEEK_SET, SEEK_CUR,
      size_add_exact hfit]
  refine ⟨hc, ?_⟩
  rw [hc]
  have := h.2.2
  exact Nat.le_min.mpr ⟨Nat.le_add_right _ _, this⟩

/-- C4: in every state reached from construction by `read` and `seek` calls,
`eof()` is true exactly when `cursor >= length`, which there is exactly when
`tell() == size()`; two sources with the same cursor and length give the same
`eof()`, whatever calls led to them. -/
theorem C4_eof_eager (buffer : List uint8_t) (h : buffer.length < SIZE_MOD)
    (calls : List mem_call) :
    let s := mem_run (llama_memory_source.ctor buffer buffer.length) calls
    (s.eof = true ↔ s.current_pos ≥ s.data_size) ∧
      (s.eof = true ↔ s.tell = s.size) ∧
      (∀ t : llama_memory_source, t.tell = s.tell → t.size = s.size → t.eof = s.eof) := by
  intro s
  have hv : mem_valid s := mem_valid_run _ (mem_valid_ctor buffer h)
  have hle : s.current_pos ≤ s.data_size := hv.2.2
  refine ⟨by simp [llama_memory_source.eof], ?_, ?_⟩
  · simp only [llama_memory_source.eof, llama_memory_source.tell, llama_memory_source.size,
      decide_eq_true_eq]
    omega
  · intro t ht hs
    simp only [llama_memory_source.tell, llama_memory_source.size] at ht hs
    simp only [llama_memory_source.eof, ht, hs]

/-- Witness of C4: the buffer `[0x10, 0x20, 0x30, 0x40]` after a seek to 1 and a
read of 10 bytes. -/
theorem C4_eof_eager_witness :
    ([0x10, 0x20, 0x30, 0x40] : List uint8_t).length < SIZE_MOD ∧
    (let s := mem_run (llama_memory_source.ctor [0x10, 0x20, 0x30, 0x40]
        ([0x10, 0x20, 0x30, 0x40] : List uint8_t).length)
        [mem_call.seek 1 SEEK_CUR, mem_call.read [] 10];
      (s.eof = true ↔ s.current_pos ≥ s.data_size) ∧
        (s.eof = true ↔ s.tell = s.size) ∧
        (∀ t : llama_memory_source, t.tell = s.tell → t.size = s.size → t.eof = s.eof)) :=
  ⟨by unfold SIZE_MOD; norm_num,
    C4_eof_eager [0x10, 0x20, 0x30, 0x40] (by unfold SIZE_MOD; norm_num)
      [mem_call.seek 1 SEEK_CUR, mem_call.read [] 10]⟩

/-- C5: whatever the cursor, after `seek(offset, SEEK_SET)` the value of `tell()`
is `min(offset, L)`: the offset itself when `offset <= L` and `L` otherwise. -/
theorem C5_seek_set (s : llama_memory_source) (offset : Nat) :
    (s.seek offset SEEK_SET).tell = min offset s.size ∧
      (s.seek offset SEEK_SET).tell = (if offset ≤ s.size then offset else s.size) := by
  have hc : (s.seek offset SEEK_SET).tell = min offset s.size := by
    simp [llama_memory_source.seek, llama_memory_source.tell, llama_memory_source.size]
  refine ⟨hc, ?_⟩
  rw [hc]
  split
  · rename_i hle; exact Nat.min_eq_left hle
  · rename_i hgt; exact Nat.min_eq_right (by omega)

/-- C6: whatever the cursor, after `seek(offset, SEEK_END)` the value of `tell()`
is `L - offset` when `offset <= L` and 0 when `offset > L`; `seek(0, SEEK_END)`
makes `eof()` true and `seek(L, SEEK_END)` rewinds to 0. -/
theorem C6_seek_end (s : llama_memory_source) (h : s.data_size < SIZE_MOD) (offset : Nat) :
    (s.seek offset SEEK_END).tell = (if offset ≤ s.size then s.size - offset else 0) ∧
      (s.seek 0 SEEK_END).eof = true ∧
      (s.seek s.size SEEK_END).tell = 0 := by
  have hc : ∀ o : Nat, (s.seek o SEEK_END).tell =
      (if s.data_size > o then size_sub s.data_size o else 0) := by
    intro o
    simp [llama_memory_source.seek, llama_memory_source.tell, SEEK_SET, SEEK_CUR, SEEK_END]
  have hv : ∀ o : Nat, (s.seek o SEEK_END).tell = (if o ≤ s.size then s.size - o else 0) := by
    intro o
    rw [hc o]
    show (if s.data_size > o then size_sub s.data_size o else 0) =
      (if o ≤ s.data_size then s.data_size - o else 0)
    by_cases hgt : s.data_size > o
    · rw [if_pos hgt, if_pos (Nat.le_of_lt hgt), size_sub_exact h (Nat.le_of_lt hgt)]
    · rw [if_neg hgt]
      split <;> omega
  refine ⟨hv offset, ?_, ?_⟩
  · have h0 := hv 0
    simp only [llama_memory_source.tell, llama_memory_source.size] at h0
    have hsz : (s.seek 0 SEEK_END).data_size = s.data_size := by
      simp [llama_memory_source.seek, SEEK_SET, SEEK_CUR, SEEK_END]
    simp only [llama_memory_source.eof, hsz, h0, decide_eq_true_eq]
    simp
  · rw [hv s.size]; simp

/-- Witness of C6: cursor 3 in a buffer of 4 bytes, an end-relative seek by 1. -/
theorem C6_seek_end_witness :
    (4 : Nat) < SIZE_MOD ∧
    (let s : llama_memory_source :=
        { data := [0x10, 0x20, 0x30, 0x40], data_size := 4, current_pos := 3 };
      (s.seek 1 SEEK_END).tell = (if 1 ≤ s.size then s.size - 1 else 0) ∧
        (s.seek 0 SEEK_END).eof = true ∧
        (s.seek s.size SEEK_END).tell = 0) :=
  ⟨by unfold SIZE_MOD; norm_num,
    C6_seek_end { data := [0x10, 0x20, 0x30, 0x40], data_size := 4, current_pos := 3 }
      (by unfold SIZE_MOD; norm_num) 1⟩

/-- C7: on a freshly constructed source over a buffer of length `L`, for `k <= L`
and `m >= L - k`, `seek(k, SEEK_CUR)` followed by `read(buf, m)` returns `L - k`,
delivers exactly the suffix `data[k..L)`, and `eof()` is true afterwards. -/
theorem C7_seek_cur_read_suffix (buffer : List uint8_t) (h : buffer.length < SIZE_MOD)
    (k m : Nat) (hk : k ≤ buffer.length) (hm : buffer.length - k ≤ m) (buf : List uint8_t) :
    let r := ((llama_memory_source.ctor buffer buffer.length).seek k SEEK_CUR).read buf m
    r.ret = buffer.length - k ∧
      r.buffer.take r.ret = buffer.drop k ∧
      r.self.eof = true := by
  intro r
  have hv0 := mem_valid_ctor buffer h
  have hs : (llama_memory_source.ctor buffer buffer.length).seek k SEEK_CUR =
      { data := buffer, data_size := buffer.length, current_pos := k } := by
    have hfit : (llama_memory_source.ctor buffer buffer.length).current_pos + k < SIZE_MOD := by
      show 0 + k < SIZE_MOD
      omega
    simp [llama_memory_source.seek, llama_memory_source.ctor, SEEK_SET, SEEK_CUR,
      size_add, Nat.mod_eq_of_lt (show k < SIZE_MOD by omega), hk]
  have hv : mem_valid ({ data := buffer, data_size := buffer.length, current_pos := k } :
      llama_memory_source) := ⟨rfl, h, hk⟩
  have hmin : min m (buffer.length - k) = buffer.length - k := Nat.min_eq_right hm
  have hret : r.ret = buffer.length - k := by
    show (((llama_memory_source.ctor buffer buffer.length).seek k SEEK_CUR).read buf m).ret = _
    rw [hs, mem_read_ret hv]; exact hmin
  refine ⟨hret, ?_, ?_⟩
  · rw [hret]
    show (((llama_memory_source.ctor buffer buffer.length).seek k SEEK_CUR).read buf m).buffer.take
      (buffer.length - k) = _
    rw [hs, mem_read_buffer hv]
    show (memcpy buf (buffer.drop k) (min m (buffer.length - k))).take _ = _
    rw [hmin, memcpy_take _ _ _ (by rw [List.length_drop])]
    exact List.take_of_length_le (by rw [List.length_drop])
  · show (((llama_memory_source.ctor buffer buffer.length).seek k SEEK_CUR).read buf m).self.eof
      = true
    rw [hs, mem_read_self hv]
    simp only [llama_memory_source.eof, decide_eq_true_eq]
    show buffer.length ≤ k + min m (buffer.length - k)
    rw [hmin]; omega

/-- Witness of C7: buffer `[0x10, 0x20, 0x30, 0x40]`, `seek(1, SEEK_CUR)`, then
`read(buf, 10)`. -/
theorem C7_seek_cur_read_suffix_witness :
    ([0x10, 0x20, 0x30, 0x40] : List uint8_t).length < SIZE_MOD ∧
    1 ≤ ([0x10, 0x20, 0x30, 0x40] : List uint8_t).length ∧
    ([0x10, 0x20, 0x30, 0x40] : List uint8_t).length - 1 ≤ 10 ∧
    (let r := ((llama_memory_source.ctor [0x10, 0x20, 0x30, 0x40]
        ([0x10, 0x20, 0x30, 0x40] : List uint8_t).length).seek 1 SEEK_CUR).read
          [0, 0, 0, 0, 0, 0, 0, 0, 0, 0] 10;
      r.ret = ([0x10, 0x20, 0x30, 0x40] : List uint8_t).length - 1 ∧
        r.buffer.take r.ret = ([0x10, 0x20, 0x30, 0x40] : List uint8_t).drop 1 ∧
        r.self.eof = true) :=
  ⟨by unfold SIZE_MOD; norm_num, by decide, by decide,
    C7_seek_cur_read_suffix [0x10, 0x20, 0x30, 0x40] (by unfold SIZE_MOD; norm_num) 1 10
      (by decide) (by decide) [0, 0, 0, 0, 0, 0, 0, 0, 0, 0]⟩

/-- C8: for `offset >= L`, `seek(offset, SEEK_SET)` clamps `tell()` to `L`, and a
following `read(buf, size)` of any size returns 0, leaves `buf` as it was and
leaves the cursor at `L`. -/
theorem C8_seek_past_end_read (s : llama_memory_source) (offset : Nat)
    (h : s.size ≤ offset) (buf : List uint8_t) (size : Nat) :
    let t := s.seek offset SEEK_SET
    let r := t.read buf size
    t.tell = s.size ∧ r.ret = 0 ∧ r.buffer = buf ∧ r.self.tell = s.size ∧ r.self = t := by
  intro t r
  have ht : t = { s with current_pos := s.data_size } := by
    show s.seek offset SEEK_SET = _
    simp only [llama_memory_source.size] at h
    simp [llama_memory_source.seek, Nat.min_eq_right h]
  have hr : r = { self := t, buffer := buf, ret := 0 } := by
    show t.read buf size = _
    rw [ht]
    simp [llama_memory_source.read, size_sub_self]
  rw [hr]
  refine ⟨?_, rfl, rfl, ?_, rfl⟩ <;> rw [ht] <;> rfl

/-- Witness of C8: a buffer of 4 bytes, `seek(100, SEEK_SET)`, then a read. -/
theorem C8_seek_past_end_read_witness :
    ({ data := [0x10, 0x20, 0x30, 0x40], data_size := 4, current_pos := 0 } :
        llama_memory_source).size ≤ 100 ∧
    (let s : llama_memory_source :=
        { data := [0x10, 0x20, 0x30, 0x40], data_size := 4, current_pos := 0 };
      let t := s.seek 100 SEEK_SET;
      let r := t.read [7, 7] 2;
      t.tell = s.size ∧ r.ret = 0 ∧ r.buffer = [7, 7] ∧ r.self.tell = s.size ∧ r.self = t) :=
  ⟨by decide,
    C8_seek_past_end_read { data := [0x10, 0x20, 0x30, 0x40], data_size := 4, current_pos := 0 }
      100 (by decide) [7, 7] 2⟩

/-! ## `llama_file_source` -/

theorem to_size_t_of_lt {n : Nat} (h : n < SIZE_MOD) : to_size_t (n : Int) = n := by
  unfold to_size_t
  have h1 : ((n : Int) % (SIZE_MOD : Int)) = ((n % SIZE_MOD : Nat) : Int) := by
    exact (Int.natCast_mod n SIZE_MOD).symm
  rw [h1, Nat.mod_eq_of_lt h]
  exact Int.toNat_natCast n

theorem file_eof_eq (s : llama_file_source) : s.eof = s.fp.eof_ind := by
  unfold llama_file_source.eof feof
  cases s.fp.eof_ind <;> simp

theorem file_read_zero (s : llama_file_source) (buf : List uint8_t) :
    s.read buf 0 = { self := s, buffer := buf, ret := 0 } := by
  simp [llama_file_source.read, fread]

theorem file_read_pos (s : llama_file_source) (buf : List uint8_t) (size : Nat)
    (h : 0 < size) :
    s.read buf size =
      { self := { s with fp := { s.fp with
            pos := s.fp.pos + min size (s.fp.contents.length - s.fp.pos),
            eof_ind := s.fp.eof_ind ||
              decide (min size (s.fp.contents.length - s.fp.pos) < size) } },
        buffer := memcpy buf (s.fp.contents.drop s.fp.pos)
          (min size (s.fp.contents.length - s.fp.pos)),
        ret := min size (s.fp.contents.length - s.fp.pos) } := by
  have hne : size ≠ 0 := by omega
  simp [llama_file_source.read, fread, hne]

/-- C9: construction of a `llama_file_source` fails with the exception
"Failed to open file" whenever `fopen(filename, "rb")` yields no handle; the
only library call made is then that `fopen` (no `stat`, `fseek` or `ftell`) and
no object is produced; whenever `fopen` yields a handle, construction
produces an object and throws nothing. -/
theorem C9_open_error (env : libc_env) (filename : String) :
    (env.fopen filename "rb" = none →
        llama_file_source.ctor env filename =
          (Except.error "Failed to open file", [libc_call.fopen filename "rb"])) ∧
      (∀ fp : FILE, env.fopen filename "rb" = some fp →
        ∃ src : llama_file_source, (llama_file_source.ctor env filename).1 = Except.ok src) := by
  constructor
  · intro h
    simp [llama_file_source.ctor, h]
  · intro fp h
    unfold llama_file_source.ctor
    rw [h]
    cases hst : env.stat filename with
    | none => exact ⟨_, rfl⟩
    | some st_size => exact ⟨_, rfl⟩

/-- Witness of C9: a system where no file can be opened, and one where every
path opens a one-byte file whose `stat` fails. -/
theorem C9_open_error_witness :
    (llama_file_source.ctor { fopen := fun _ _ => none, stat := fun _ => none } "missing.gguf" =
        (Except.error "Failed to open file", [libc_call.fopen "missing.gguf" "rb"])) ∧
      (∃ src : llama_file_source,
        (llama_file_source.ctor
          { fopen := fun _ _ => some { contents := [0x41], pos := 0, eof_ind := false },
            stat := fun _ => none } "model.gguf").1 = Except.ok src) :=
  ⟨(C9_open_error { fopen := fun _ _ => none, stat := fun _ => none } "missing.gguf").1 rfl,
    (C9_open_error
      { fopen := fun _ _ => some { contents := [0x41], pos := 0, eof_ind := false },
        stat := fun _ => none } "model.gguf").2
      { contents := [0x41], pos := 0, eof_ind := false } rfl⟩

/-- C10 (the claim as stated fails): a one-byte file is opened, `read(buf, 1)`
consumes its last byte and `eof()` is false; one more read call of length zero,
`read(buf, 0)`, returns 0 and `eof()` is still false. -/
theorem C10_zero_length_read_keeps_eof :
    ∃ s : llama_file_source,
      (llama_file_source.ctor
        { fopen := fun _ _ => some { contents := [0x41], pos := 0, eof_ind := false },
          stat := fun _ => some 1 } "a.bin").1 = Except.ok s ∧
      (s.read [0] 1).ret = 1 ∧
      (s.read [0] 1).self.eof = false ∧
      ((s.read [0] 1).self.read [0] 0).ret = 0 ∧
      ((s.read [0] 1).self.read [0] 0).self.eof = false :=
  ⟨{ fp := { contents := [0x41], pos := 0, eof_ind := false }, file_size := 1 },
    by simp [llama_file_source.ctor, to_size_t, SIZE_MOD], by decide, by decide, by decide,
    by decide⟩

/-- C10 (amended): on an open, non-empty file with bytes left, `eof()` right
after a read of exactly the remaining bytes is false although `tell() >= size()`
holds there; one more read call of positive size returns 0 and makes `eof()`
true, while a read call of size 0 returns 0 and leaves `eof()` false; `eof()`
is the stream's end-of-file indicator in every state. -/
theorem C10_file_eof_lazy (s : llama_file_source)
    (hpos : s.fp.pos < s.fp.contents.length) (heof : s.fp.eof_ind = false)
    (hsize : s.file_size = s.fp.contents.length) (hfit : s.fp.contents.length < SIZE_MOD)
    (buf buf2 : List uint8_t) (size : Nat) (hsz : 0 < size) :
    let r1 := s.read buf (s.fp.contents.length - s.fp.pos)
    r1.ret = s.fp.contents.length - s.fp.pos ∧
      r1.self.eof = false ∧
      r1.self.tell ≥ r1.self.size ∧
      (r1.self.read buf2 size).ret = 0 ∧
      (r1.self.read buf2 size).self.eof = true ∧
      (r1.self.read buf2 0).ret = 0 ∧
      (r1.self.read buf2 0).self.eof = false ∧
      (∀ t : llama_file_source, t.eof = t.fp.eof_ind) := by
  intro r1
  have hrem : 0 < s.fp.contents.length - s.fp.pos := by omega
  have hr1 : r1 =
      { self := { s with fp := { s.fp with pos := s.fp.contents.length, eof_ind := false } },
        buffer := memcpy buf (s.fp.contents.drop s.fp.pos) (s.fp.contents.length - s.fp.pos),
        ret := s.fp.contents.length - s.fp.pos } := by
    show s.read buf (s.fp.contents.length - s.fp.pos) = _
    rw [file_read_pos s buf _ hrem]
    have hp : s.fp.pos + (s.fp.contents.length - s.fp.pos) = s.fp.contents.length := by omega
    simp [heof, hp]
  have hself : r1.self =
      { s with fp := { s.fp with pos := s.fp.contents.length, eof_ind := false } } := by
    rw [hr1]
  refine ⟨by rw [hr1], ?_, ?_, ?_, ?_, ?_, ?_, file_eof_eq⟩
  · rw [file_eof_eq, hself]
  · rw [hself]
    show to_size_t ((s.fp.contents.length : Nat) : Int) ≥ s.file_size
    rw [to_size_t_of_lt hfit, hsize]
  · rw [hself, file_read_pos _ _ _ hsz]
    simp
  · rw [hself, file_read_pos _ _ _ hsz, file_eof_eq]
    simp [hsz]
  · rw [file_read_zero]
  · rw [file_read_zero, file_eof_eq, hself]

/-- Witness of C10 (amended): the one-byte file `[0x41]` read by one byte, then
by two. -/
theorem C10_file_eof_lazy_witness :
    (0 : Nat) < ([0x41] : List uint8_t).length ∧
    ([0x41] : List uint8_t).length < SIZE_MOD ∧
    (0 : Nat) < 2 ∧
    (let s : llama_file_source :=
        { fp := { contents := [0x41], pos := 0, eof_ind := false }, file_size := 1 };
      let r1 := s.read [0] (s.fp.contents.length - s.fp.pos);
      r1.ret = s.fp.contents.length - s.fp.pos ∧
        r1.self.eof = false ∧
        r1.self.tell ≥ r1.self.size ∧
        (r1.self.read [0, 0] 2).ret = 0 ∧
        (r1.self.read [0, 0] 2).self.eof = true ∧
        (r1.self.read [0, 0] 0).ret = 0 ∧
        (r1.self.read [0, 0] 0).self.eof = false ∧
        (∀ t : llama_file_source, t.eof = t.fp.eof_ind)) :=
  ⟨by decide, by unfold SIZE_MOD; norm_num, by decide,
    C10_file_eof_lazy
      { fp := { contents := [0x41], pos := 0, eof_ind := false }, file_size := 1 }
      (by decide) rfl rfl (by unfold SIZE_MOD; norm_num) [0] [0, 0] 2 (by decide)⟩

/-! ## Reading a file from start to end -/

theorem LONG_MOD_lt_SIZE_MOD : LONG_MOD < SIZE_MOD := by
  unfold LONG_MOD SIZE_MOD; norm_num

theorem file_read_loop_succ (sizes : Nat → Nat) (fuel i : Nat) (s : llama_file_source)
    (buf : List uint8_t) :
    file_read_loop sizes (fuel + 1) i s buf =
      (if (s.read buf (sizes i)).ret = 0 then some ([], (s.read buf (sizes i)).self)
      else
        match file_read_loop sizes fuel (i + 1) (s.read buf (sizes i)).self
            (s.read buf (sizes i)).buffer with
        | none => none
        | some (chunks, t) =>
          some (((s.read buf (sizes i)).ret,
            (s.read buf (sizes i)).buffer.take (s.read buf (sizes i)).ret) :: chunks, t)) :=
  rfl

theorem take_append_drop_add (l : List uint8_t) (p n : Nat) :
    (l.drop p).take n ++ l.drop (p + n) = l.drop p := by
  rw [← List.drop_drop n p l]
  exact List.take_append_drop n (l.drop p)

theorem file_read_loop_total (sizes : Nat → Nat) (hsizes : ∀ i, 0 < sizes i) :
    ∀ (fuel i : Nat) (s : llama_file_source) (buf : List uint8_t),
      s.fp.pos ≤ s.fp.contents.length → s.fp.contents.length - s.fp.pos < fuel →
      ∃ chunks t, file_read_loop sizes fuel i s buf = some (chunks, t) ∧
        (chunks.map Prod.snd).flatten = s.fp.contents.drop s.fp.pos ∧
        (chunks.map Prod.fst).sum = s.fp.contents.length - s.fp.pos := by
  intro fuel
  induction fuel with
  | zero => intro i s buf _ h; omega
  | succ fuel ih =>
    intro i s buf hle hfuel
    rw [file_read_loop_succ, file_read_pos s buf (sizes i) (hsizes i)]
    have hsz := hsizes i
    by_cases h0 : min (sizes i) (s.fp.contents.length - s.fp.pos) = 0
    · have hrem : s.fp.contents.length - s.fp.pos = 0 := by
        rcases Nat.min_eq_zero_iff.mp h0 with h | h
        · omega
        · exact h
      refine ⟨[], _, by rw [if_pos h0], ?_, ?_⟩
      · rw [List.drop_eq_nil_of_le (by omega)]; rfl
      · rw [hrem]; rfl
    · have hn : min (sizes i) (s.fp.contents.length - s.fp.pos) ≤
          s.fp.contents.length - s.fp.pos := Nat.min_le_right _ _
      obtain ⟨chunks, t, hloop, hcat, hsum⟩ := ih (i + 1)
        { s with fp := { s.fp with
            pos := s.fp.pos + min (sizes i) (s.fp.contents.length - s.fp.pos),
            eof_ind := s.fp.eof_ind ||
              decide (min (sizes i) (s.fp.contents.length - s.fp.pos) < sizes i) } }
        (memcpy buf (s.fp.contents.drop s.fp.pos)
          (min (sizes i) (s.fp.contents.length - s.fp.pos)))
        (by show s.fp.pos + _ ≤ s.fp.contents.length; omega)
        (by show s.fp.contents.length - (s.fp.pos + _) < fuel; omega)
      have hcat2 : (chunks.map Prod.snd).flatten = s.fp.contents.drop
          (s.fp.pos + min (sizes i) (s.fp.contents.length - s.fp.pos)) := hcat
      have hsum2 : (chunks.map Prod.fst).sum = s.fp.contents.length -
          (s.fp.pos + min (sizes i) (s.fp.contents.length - s.fp.pos)) := hsum
      refine ⟨(min (sizes i) (s.fp.contents.length - s.fp.pos),
          (memcpy buf (s.fp.contents.drop s.fp.pos)
            (min (sizes i) (s.fp.contents.length - s.fp.pos))).take
              (min (sizes i) (s.fp.contents.length - s.fp.pos))) :: chunks, t, ?_, ?_, ?_⟩
      · rw [if_neg h0]
        simp only [hloop]
      · simp only [List.map_cons, List.flatten_cons]
        rw [hcat2, memcpy_take _ _ _ (by rw [List.length_drop]; exact hn)]
        exact take_append_drop_add _ _ _
      · simp only [List.map_cons, List.sum_cons]
        rw [hsum2]
        omega

theorem file_ctor_valid (env : libc_env) (filename : String) (bytes : List uint8_t)
    (hfit : bytes.length < LONG_MOD)
    (hopen : env.fopen filename "rb" = some { contents := bytes, pos := 0, eof_ind := false })
    (hstat : env.stat filename = none ∨ env.stat filename = some (bytes.length : Int)) :
    (llama_file_source.ctor env filename).1 =
      Except.ok { fp := { contents := bytes, pos := 0, eof_ind := false },
                  file_size := bytes.length } := by
  have hlt : bytes.length < SIZE_MOD := lt_trans hfit LONG_MOD_lt_SIZE_MOD
  unfold llama_file_source.ctor
  rw [hopen]
  rcases hstat with h | h
  · rw [h]
    have hneg : ¬ ((bytes.length : Int) < 0) := by omega
    simp [fseek, ftell, SEEK_SET, SEEK_CUR, SEEK_END, hneg, to_size_t_of_lt hlt]
  · rw [h]
    simp [to_size_t_of_lt hlt]

/-- C11: for a file of `N` bytes that `fopen` opens at position 0 and whose
`stat` either fails or reports `N`, the constructed `llama_file_source` has
`size() = N` and `tell() = 0`; reading it from there in chunks of arbitrary
positive sizes until a read returns 0 ends (within `N + 1` reads), the chunks
delivered, concatenated, are the file's bytes, and the returned counts sum to
`size()`. -/
theorem C11_file_round_trip (env : libc_env) (filename : String) (bytes : List uint8_t)
    (hfit : bytes.length < LONG_MOD)
    (hopen : env.fopen filename "rb" = some { contents := bytes, pos := 0, eof_ind := false })
    (hstat : env.stat filename = none ∨ env.stat filename = some (bytes.length : Int))
    (sizes : Nat → Nat) (hsizes : ∀ i, 0 < sizes i) (buf : List uint8_t)
    (fuel : Nat) (hfuel : bytes.length < fuel) :
    ∃ src : llama_file_source,
      (llama_file_source.ctor env filename).1 = Except.ok src ∧
      src.size = bytes.length ∧
      src.tell = 0 ∧
      ∃ chunks t, file_read_loop sizes fuel 0 src buf = some (chunks, t) ∧
        (chunks.map Prod.snd).flatten = bytes ∧
        (chunks.map Prod.fst).sum = src.size := by
  obtain ⟨chunks, t, hloop, hcat, hsum⟩ := file_read_loop_total sizes hsizes fuel 0
    { fp := { contents := bytes, pos := 0, eof_ind := false }, file_size := bytes.length } buf
    (Nat.zero_le _) (by show bytes.length - 0 < fuel; omega)
  refine ⟨_, file_ctor_valid env filename bytes hfit hopen hstat, rfl, ?_, chunks, t, hloop,
    hcat, hsum⟩
  show to_size_t ((0 : Nat) : Int) = 0
  exact to_size_t_of_lt SIZE_MOD_pos

/-- Witness of C11: the three-byte file `[0x41, 0x42, 0x43]`, whose `stat` fails,
read in chunks of 2 bytes. -/
theorem C11_file_round_trip_witness :
    ([0x41, 0x42, 0x43] : List uint8_t).length < LONG_MOD ∧
    (∀ i : Nat, 0 < (fun _ : Nat => 2) i) ∧
    ([0x41, 0x42, 0x43] : List uint8_t).length < 4 ∧
    (∃ src : llama_file_source,
      (llama_file_source.ctor
        { fopen := fun _ _ => some { contents := [0x41, 0x42, 0x43], pos := 0, eof_ind := false },
          stat := fun _ => none } "model.gguf").1 = Except.ok src ∧
      src.size = ([0x41, 0x42, 0x43] : List uint8_t).length ∧
      src.tell = 0 ∧
      ∃ chunks t, file_read_loop (fun _ => 2) 4 0 src [0, 0] = some (chunks, t) ∧
        (chunks.map Prod.snd).flatten = [0x41, 0x42, 0x43] ∧
        (chunks.map Prod.fst).sum = src.size) :=
  ⟨by unfold LONG_MOD; norm_num, fun _ => Nat.succ_pos 1, by decide,
    C11_file_round_trip
      { fopen := fun _ _ => some { contents := [0x41, 0x42, 0x43], pos := 0, eof_ind := false },
        stat := fun _ => none } "model.gguf" [0x41, 0x42, 0x43]
      (by unfold LONG_MOD; norm_num) rfl (Or.inl rfl) (fun _ => 2) (fun _ => Nat.succ_pos 1)
      [0, 0] 4
      (by decide)⟩

/-! ## Construction and frame of `llama_memory_source` -/

theorem mem_zero_read (buffer buf : List uint8_t) (n : Nat) :
    (llama_memory_source.ctor buffer 0).read buf n =
      { self := llama_memory_source.ctor buffer 0, buffer := buf, ret := 0 } := by
  simp [llama_memory_source.read, llama_memory_source.ctor, size_sub_self]

theorem mem_zero_seek (buffer : List uint8_t) (offset : Nat) (whence : Int) :
    (llama_memory_source.ctor buffer 0).seek offset whence =
      llama_memory_source.ctor buffer 0 := by
  unfold llama_memory_source.seek llama_memory_source.ctor
  split
  · simp
  · split
    · simp
    · split
      · simp
      · rfl

theorem mem_zero_run (buffer : List uint8_t) (calls : List mem_call) :
    mem_run (llama_memory_source.ctor buffer 0) calls = llama_memory_source.ctor buffer 0 := by
  induction calls with
  | nil => rfl
  | cons c cs ih =>
    show mem_run (mem_call.apply (llama_memory_source.ctor buffer 0) c) cs = _
    cases c with
    | read b n =>
      show mem_run ((llama_memory_source.ctor buffer 0).read b n).self cs = _
      rw [mem_zero_read]; exact ih
    | seek offset whence =>
      show mem_run ((llama_memory_source.ctor buffer 0).seek offset whence) cs = _
      rw [mem_zero_seek]; exact ih

/-- C12: the constructor is a total function of `(buffer, buffer_length)`; the
source it yields has `tell() = 0` and `size() = buffer_length`, and its `eof()`
is true exactly when `buffer_length = 0`; on a zero-length source, whatever the
buffer (the empty one included) and after whatever calls, every `read` returns
0 and leaves the caller's buffer and the object as they were. -/
theorem C12_ctor_total (buffer : List uint8_t) (buffer_size : Nat) :
    let s := llama_memory_source.ctor buffer buffer_size
    s.tell = 0 ∧ s.size = buffer_size ∧ s.data = buffer ∧
      (s.eof = true ↔ buffer_size = 0) ∧
      (∀ (calls : List mem_call) (buf : List uint8_t) (n : Nat),
        ((mem_run (llama_memory_source.ctor buffer 0) calls).read buf n).ret = 0 ∧
        ((mem_run (llama_memory_source.ctor buffer 0) calls).read buf n).buffer = buf ∧
        ((mem_run (llama_memory_source.ctor buffer 0) calls).read buf n).self =
          mem_run (llama_memory_source.ctor buffer 0) calls) := by
  intro s
  refine ⟨rfl, rfl, rfl, ?_, ?_⟩
  · show decide ((0 : Nat) ≥ buffer_size) = true ↔ buffer_size = 0
    simp
  · intro calls buf n
    rw [mem_zero_run, mem_zero_read]
    exact ⟨rfl, rfl, rfl⟩

theorem mem_read_frame (t : llama_memory_source) (buf : List uint8_t) (n : Nat) :
    (t.read buf n).self.data = t.data ∧ (t.read buf n).self.data_size = t.data_size := by
  unfold llama_memory_source.read
  dsimp only
  split <;> exact ⟨rfl, rfl⟩

theorem mem_seek_frame (t : llama_memory_source) (offset : Nat) (whence : Int) :
    (t.seek offset whence).data = t.data ∧ (t.seek offset whence).data_size = t.data_size := by
  unfold llama_memory_source.seek
  split
  · exact ⟨rfl, rfl⟩
  · split
    · exact ⟨rfl, rfl⟩
    · split <;> exact ⟨rfl, rfl⟩

theorem ptr_read_frame (t : llama_memory_source_ptr) (m : address_space) (b n : Nat) :
    (t.read m b n).self.data = t.data ∧ (t.read m b n).self.data_size = t.data_size := by
  unfold llama_memory_source_ptr.read
  dsimp only
  split <;> exact ⟨rfl, rfl⟩

theorem ptr_seek_frame (t : llama_memory_source_ptr) (offset : Nat) (whence : Int) :
    (t.seek offset whence).data = t.data ∧ (t.seek offset whence).data_size = t.data_size := by
  unfold llama_memory_source_ptr.seek
  split
  · exact ⟨rfl, rfl⟩
  · split
    · exact ⟨rfl, rfl⟩
    · split <;> exact ⟨rfl, rfl⟩

theorem memcpy_at_outside (m : address_space) (dst src n a : Nat)
    (h : a < dst ∨ dst + n ≤ a) : memcpy_at m dst src n a = m a := by
  unfold memcpy_at
  rw [if_neg]
  omega

theorem ptr_read_memory_clear (t : llama_memory_source_ptr) (m : address_space)
    (b n lo len : Nat) (h : b + n ≤ lo ∨ lo + len ≤ b) (a : Nat) (h1 : lo ≤ a)
    (h2 : a < lo + len) : (t.read m b n).memory a = m a := by
  unfold llama_memory_source_ptr.read
  dsimp only
  split
  · have hle : min n (size_sub t.data_size t.current_pos) ≤ n := Nat.min_le_left _ _
    exact memcpy_at_outside _ _ _ _ _ (by omega)
  · rfl

theorem ptr_read_refines (t : llama_memory_source_ptr) (m : address_space) (b n : Nat)
    (buf : List uint8_t) :
    (t.read m b n).ret = ((t.to_list_level m).read buf n).ret ∧
      (t.read m b n).self.current_pos = ((t.to_list_level m).read buf n).self.current_pos ∧
      (∀ i, i < (t.read m b n).ret →
        (t.read m b n).memory (b + i) = m (t.data + t.current_pos + i)) := by
  have key : ∀ i, i < min n (size_sub t.data_size t.current_pos) →
      memcpy_at m b (t.data + t.current_pos) (min n (size_sub t.data_size t.current_pos))
        (b + i) = m (t.data + t.current_pos + i) := by
    intro i hi
    unfold memcpy_at
    rw [if_pos ⟨Nat.le_add_right _ _, by omega⟩]
    congr 1
    omega
  unfold llama_memory_source_ptr.read llama_memory_source.read
    llama_memory_source_ptr.to_list_level
  dsimp only
  split
  · exact ⟨rfl, rfl, fun i hi => key i hi⟩
  · rename_i hneg
    refine ⟨rfl, rfl, ?_⟩
    intro i hi
    have hi2 : i < min n (size_sub t.data_size t.current_pos) := hi
    omega

theorem ptr_op_apply_frame (st : ptr_state) (op : ptr_op) :
    (ptr_op.apply st op).self.data = st.self.data ∧
      (ptr_op.apply st op).self.data_size = st.self.data_size := by
  cases op with
  | read b n => exact ptr_read_frame st.self st.memory b n
  | seek offset whence => exact ptr_seek_frame st.self offset whence
  | tell => exact ⟨rfl, rfl⟩
  | size => exact ⟨rfl, rfl⟩
  | eof => exact ⟨rfl, rfl⟩

theorem ptr_op_apply_clear (st : ptr_state) (op : ptr_op) (lo len : Nat)
    (h : ptr_op.clear_of lo len op) (a : Nat) (h1 : lo ≤ a) (h2 : a < lo + len) :
    (ptr_op.apply st op).memory a = st.memory a := by
  cases op with
  | read b n => exact ptr_read_memory_clear st.self st.memory b n lo len h a h1 h2
  | seek offset whence => rfl
  | tell => rfl
  | size => rfl
  | eof => rfl

theorem ptr_op_run_frame (ops : List ptr_op) :
    ∀ st : ptr_state,
      (ptr_op_run st ops).self.data = st.self.data ∧
        (ptr_op_run st ops).self.data_size = st.self.data_size := by
  induction ops with
  | nil => intro st; exact ⟨rfl, rfl⟩
  | cons op rest ih =>
    intro st
    show (ptr_op_run (ptr_op.apply st op) rest).self.data = st.self.data ∧
      (ptr_op_run (ptr_op.apply st op) rest).self.data_size = st.self.data_size
    have h1 := ih (ptr_op.apply st op)
    have h2 := ptr_op_apply_frame st op
    exact ⟨h1.1.trans h2.1, h1.2.trans h2.2⟩

theorem ptr_op_run_clear (lo len : Nat) (ops : List ptr_op) :
    ∀ st : ptr_state, (∀ op ∈ ops, ptr_op.clear_of lo len op) →
      ∀ a, lo ≤ a → a < lo + len → (ptr_op_run st ops).memory a = st.memory a := by
  induction ops with
  | nil => intro st _ a _ _; rfl
  | cons op rest ih =>
    intro st h a h1 h2
    show (ptr_op_run (ptr_op.apply st op) rest).memory a = st.memory a
    rw [ih (ptr_op.apply st op) (fun o ho => h o (List.mem_cons_of_mem _ ho)) a h1 h2]
    exact ptr_op_apply_clear st op lo len (h op (List.mem_cons_self _ _)) a h1 h2

theorem viewed_congr (s : llama_memory_source_ptr) (m1 m2 : address_space)
    (h : ∀ a, s.data ≤ a → a < s.data + s.data_size → m1 a = m2 a) :
    s.viewed m1 = s.viewed m2 := by
  unfold llama_memory_source_ptr.viewed
  apply List.map_congr_left
  intro i hi
  have hlt : i < s.data_size := List.mem_range.mp hi
  exact h _ (Nat.le_add_right _ _) (by omega)

/-- C13 (the claim as stated fails): over the four bytes `B = [0x10, 0x20, 0x30,
0x40]` at address 100, `seek(2, SEEK_SET)` then `read(B, 2)` copies the two
bytes at 102 to the two bytes at 100 (ranges that do not overlap), so the
viewed contents become `[0x30, 0x40, 0x30, 0x40]` while `size()` and the data
pointer stay as constructed. -/
theorem C13_aliasing_read_changes_view :
    (let m0 := memory_with 100 [0x10, 0x20, 0x30, 0x40];
      let st := ptr_op_run
        { memory := m0, self := llama_memory_source_ptr.ctor 100 4 }
        [ptr_op.seek 2 SEEK_SET, ptr_op.read 100 2];
      (llama_memory_source_ptr.ctor 100 4).viewed m0 = [0x10, 0x20, 0x30, 0x40] ∧
        st.self.viewed st.memory = [0x30, 0x40, 0x30, 0x40] ∧
        st.self.size = 4 ∧ st.self.data = 100 ∧ st.self.tell = 4 ∧
        (100 : Nat) + 2 ≤ 100 + 2) := by
  simp [ptr_op_run, ptr_op.apply, llama_memory_source_ptr.ctor, llama_memory_source_ptr.seek,
    llama_memory_source_ptr.read, llama_memory_source_ptr.viewed,
    llama_memory_source_ptr.size, llama_memory_source_ptr.tell, memory_with, memcpy_at,
    size_sub, size_add, SIZE_MOD, SEEK_SET, List.range, List.range.loop]

/-- C13 (amended): after every sequence of `read`, `seek`, `tell`, `size` and
`eof` calls, `size()` still returns the `buffer_length` given to the
constructor and the data pointer is the constructor's; the viewed contents
are unchanged when no `read` in the sequence has a destination buffer that
overlaps the viewed bytes; `read` and `seek` change no field of the object
but the cursor, and `tell`, `size` and `eof` change nothing. -/
theorem C13_size_fixed_view (m0 : address_space) (buffer buffer_size : Nat)
    (ops : List ptr_op) :
    let st := ptr_op_run
      { memory := m0, self := llama_memory_source_ptr.ctor buffer buffer_size } ops
    st.self.size = buffer_size ∧ st.self.data = buffer ∧
      ((∀ op ∈ ops, ptr_op.clear_of buffer buffer_size op) →
        st.self.viewed st.memory =
          (llama_memory_source_ptr.ctor buffer buffer_size).viewed m0) ∧
      (∀ (t : llama_memory_source_ptr) (m : address_space) (b n : Nat),
        (t.read m b n).self = { t with current_pos := (t.read m b n).self.current_pos }) ∧
      (∀ (t : llama_memory_source_ptr) (offset : Nat) (whence : Int),
        t.seek offset whence = { t with current_pos := (t.seek offset whence).current_pos }) ∧
      (∀ u : ptr_state,
        (ptr_op.apply u ptr_op.tell).memory = u.memory ∧
        (ptr_op.apply u ptr_op.tell).self = u.self ∧
        (ptr_op.apply u ptr_op.size).memory = u.memory ∧
        (ptr_op.apply u ptr_op.size).self = u.self ∧
        (ptr_op.apply u ptr_op.eof).memory = u.memory ∧
        (ptr_op.apply u ptr_op.eof).self = u.self) := by
  intro st
  have h := ptr_op_run_frame ops
    { memory := m0, self := llama_memory_source_ptr.ctor buffer buffer_size }
  have hd : st.self.data = buffer := h.1
  have hs : st.self.data_size = buffer_size := h.2
  refine ⟨hs, hd, ?_, ?_, ?_, fun u => ⟨rfl, rfl, rfl, rfl, rfl, rfl⟩⟩
  · intro hclear
    have hmem := ptr_op_run_clear buffer buffer_size ops
      { memory := m0, self := llama_memory_source_ptr.ctor buffer buffer_size } hclear
    have hobj : st.self.viewed st.memory =
        (llama_memory_source_ptr.ctor buffer buffer_size).viewed st.memory := by
      unfold llama_memory_source_ptr.viewed
      rw [hd, hs]
      rfl
    rw [hobj]
    exact viewed_congr _ _ _ (fun a h1 h2 => hmem a h1 h2)
  · intro t m b n
    have hf := ptr_read_frame t m b n
    cases hr : (t.read m b n).self with
    | mk d sz pos =>
      rw [hr] at hf
      simp only at hf
      simp only [llama_memory_source_ptr.mk.injEq, and_true]
      exact ⟨hf.1, hf.2⟩
  · intro t offset whence
    have hf := ptr_seek_frame t offset whence
    cases hr : t.seek offset whence with
    | mk d sz pos =>
      rw [hr] at hf
      simp only at hf
      simp only [llama_memory_source_ptr.mk.injEq, and_true]
      exact ⟨hf.1, hf.2⟩

/-- Witness of C13 (amended): the same four bytes at address 100, a seek, a read
of 2 bytes into a buffer at address 200, and a `tell`. -/
theorem C13_size_fixed_view_witness :
    (∀ op ∈ [ptr_op.seek 2 SEEK_SET, ptr_op.read 200 2, ptr_op.tell],
      ptr_op.clear_of 100 4 op) ∧
    (let st := ptr_op_run
        { memory := memory_with 100 [0x10, 0x20, 0x30, 0x40],
          self := llama_memory_source_ptr.ctor 100 4 }
        [ptr_op.seek 2 SEEK_SET, ptr_op.read 200 2, ptr_op.tell];
      st.self.size = 4 ∧ st.self.data = 100 ∧
        st.self.viewed st.memory =
          (llama_memory_source_ptr.ctor 100 4).viewed
            (memory_with 100 [0x10, 0x20, 0x30, 0x40])) :=
  ⟨by intro op hop; simp at hop; rcases hop with h | h | h <;> subst h <;>
      simp [ptr_op.clear_of],
    (C13_size_fixed_view (memory_with 100 [0x10, 0x20, 0x30, 0x40]) 100 4
      [ptr_op.seek 2 SEEK_SET, ptr_op.read 200 2, ptr_op.tell]).1,
    (C13_size_fixed_view (memory_with 100 [0x10, 0x20, 0x30, 0x40]) 100 4
      [ptr_op.seek 2 SEEK_SET, ptr_op.read 200 2, ptr_op.tell]).2.1,
    (C13_size_fixed_view (memory_with 100 [0x10, 0x20, 0x30, 0x40]) 100 4
      [ptr_op.seek 2 SEEK_SET, ptr_op.read 200 2, ptr_op.tell]).2.2.1
      (by intro op hop; simp at hop; rcases hop with h | h | h <;> subst h <;>
        simp [ptr_op.clear_of])⟩

/-- C15: for every `whence` other than `SEEK_SET`, `SEEK_CUR` and `SEEK_END` and
every offset, `seek(offset, whence)` returns with the object unchanged: same
cursor, same length, same data view. -/
theorem C15_seek_unknown_whence (s : llama_memory_source) (offset : Nat) (whence : Int)
    (h1 : whence ≠ SEEK_SET) (h2 : whence ≠ SEEK_CUR) (h3 : whence ≠ SEEK_END) :
    s.seek offset whence = s ∧
      (s.seek offset whence).tell = s.tell ∧
      (s.seek offset whence).size = s.size ∧
      (s.seek offset whence).data = s.data := by
  have h : s.seek offset whence = s := by
    unfold llama_memory_source.seek
    rw [if_neg h1, if_neg h2, if_neg h3]
  rw [h]
  exact ⟨rfl, rfl, rfl, rfl⟩

/-- Witness of C15: `seek(2, 3)` with the cursor at 1 in a buffer of 4 bytes. -/
theorem C15_seek_unknown_whence_witness :
    (3 : Int) ≠ SEEK_SET ∧ (3 : Int) ≠ SEEK_CUR ∧ (3 : Int) ≠ SEEK_END ∧
    (let s : llama_memory_source :=
        { data := [0x10, 0x20, 0x30, 0x40], data_size := 4, current_pos := 1 };
      s.seek 2 3 = s ∧
        (s.seek 2 3).tell = s.tell ∧
        (s.seek 2 3).size = s.size ∧
        (s.seek 2 3).data = s.data) :=
  ⟨by decide, by decide, by decide,
    C15_seek_unknown_whence
      { data := [0x10, 0x20, 0x30, 0x40], data_size := 4, current_pos := 1 } 2 3
      (by decide) (by decide) (by decide)⟩

/-! ## Position save and restore, reads at the end -/

theorem mem_seek_set_restore (s t : llama_memory_source) (hd : t.data = s.data)
    (hs : t.data_size = s.data_size) (hle : s.current_pos ≤ s.data_size) :
    t.seek s.current_pos SEEK_SET = s := by
  cases s with
  | mk d sz pos =>
    cases t with
    | mk d2 sz2 pos2 =>
      simp only at hd hs hle
      subst hd; subst hs
      simp [llama_memory_source.seek, Nat.min_eq_left hle]

/-- C16: in every state reached from construction, `seek(tell(), SEEK_SET)`
leaves the object unchanged; and with `p = tell()` recorded, `read(buf, n)`,
`seek(p, SEEK_SET)`, `read(buf, n)` makes the second read return the same
count and the same bytes as the first. -/
theorem C16_save_restore (buffer : List uint8_t) (h : buffer.length < SIZE_MOD)
    (calls : List mem_call) (buf buf2 : List uint8_t) (n : Nat) :
    let s := mem_run (llama_memory_source.ctor buffer buffer.length) calls
    let r1 := s.read buf n
    let r2 := (r1.self.seek s.tell SEEK_SET).read buf2 n
    let r3 := (r1.self.seek s.tell SEEK_SET).read r1.buffer n
    s.seek s.tell SEEK_SET = s ∧
      r2.ret = r1.ret ∧ r2.buffer.take r2.ret = r1.buffer.take r1.ret ∧
      r3.ret = r1.ret ∧ r3.buffer.take r3.ret = r1.buffer.take r1.ret := by
  intro s r1 r2 r3
  have hv : mem_valid s := mem_valid_run _ (mem_valid_ctor buffer h)
  have hback : r1.self.seek s.tell SEEK_SET = s :=
    mem_seek_set_restore s r1.self (mem_read_frame s buf n).1 (mem_read_frame s buf n).2 hv.2.2
  have hsrc : min n (s.data_size - s.current_pos) ≤ (s.data.drop s.current_pos).length := by
    rw [List.length_drop, hv.1]; exact Nat.min_le_right _ _
  have hr1 : r1.ret = min n (s.data_size - s.current_pos) := mem_read_ret hv buf n
  have hb1 : r1.buffer.take (min n (s.data_size - s.current_pos)) =
      (s.data.drop s.current_pos).take (min n (s.data_size - s.current_pos)) := by
    show (s.read buf n).buffer.take _ = _
    rw [mem_read_buffer hv]; exact memcpy_take _ _ _ hsrc
  have hagain : ∀ b : List uint8_t, (s.read b n).ret = r1.ret ∧
      (s.read b n).buffer.take (s.read b n).ret = r1.buffer.take r1.ret := by
    intro b
    rw [hr1, mem_read_ret hv b n, hb1, mem_read_buffer hv]
    exact ⟨rfl, memcpy_take _ _ _ hsrc⟩
  refine ⟨mem_seek_set_restore s s rfl rfl hv.2.2, ?_, ?_, ?_, ?_⟩
  · show ((r1.self.seek s.tell SEEK_SET).read buf2 n).ret = _
    rw [hback]; exact (hagain buf2).1
  · show ((r1.self.seek s.tell SEEK_SET).read buf2 n).buffer.take
      ((r1.self.seek s.tell SEEK_SET).read buf2 n).ret = _
    rw [hback]; exact (hagain buf2).2
  · show ((r1.self.seek s.tell SEEK_SET).read r1.buffer n).ret = _
    rw [hback]; exact (hagain r1.buffer).1
  · show ((r1.self.seek s.tell SEEK_SET).read r1.buffer n).buffer.take
      ((r1.self.seek s.tell SEEK_SET).read r1.buffer n).ret = _
    rw [hback]; exact (hagain r1.buffer).2

/-- Witness of C16: the buffer `[0x10, 0x20, 0x30, 0x40]` after a seek to 1, a
read of 2 bytes, the restore and the second read. -/
theorem C16_save_restore_witness :
    ([0x10, 0x20, 0x30, 0x40] : List uint8_t).length < SIZE_MOD ∧
    (let s := mem_run (llama_memory_source.ctor [0x10, 0x20, 0x30, 0x40]
        ([0x10, 0x20, 0x30, 0x40] : List uint8_t).length) [mem_call.seek 1 SEEK_CUR];
      let r1 := s.read [0, 0] 2;
      let r2 := (r1.self.seek s.tell SEEK_SET).read [7, 7] 2;
      let r3 := (r1.self.seek s.tell SEEK_SET).read r1.buffer 2;
      s.seek s.tell SEEK_SET = s ∧
        r2.ret = r1.ret ∧ r2.buffer.take r2.ret = r1.buffer.take r1.ret ∧
        r3.ret = r1.ret ∧ r3.buffer.take r3.ret = r1.buffer.take r1.ret) :=
  ⟨by unfold SIZE_MOD; norm_num,
    C16_save_restore [0x10, 0x20, 0x30, 0x40] (by unfold SIZE_MOD; norm_num)
      [mem_call.seek 1 SEEK_CUR] [0, 0] [7, 7] 2⟩

/-- C17: in every state reached from construction and for every `size > 0`,
`read(buf, size)` returns 0 exactly when `eof()` was true right before the
call; and when `read` returns fewer bytes than requested, `eof()` is true
right after it. -/
theorem C17_read_zero_iff_eof (buffer : List uint8_t) (h : buffer.length < SIZE_MOD)
    (calls : List mem_call) (buf : List uint8_t) (size : Nat) (hsz : 0 < size) :
    let s := mem_run (llama_memory_source.ctor buffer buffer.length) calls
    ((s.read buf size).ret = 0 ↔ s.eof = true) ∧
      ((s.read buf size).ret < size → (s.read buf size).self.eof = true) := by
  intro s
  have hv : mem_valid s := mem_valid_run _ (mem_valid_ctor buffer h)
  have hle : s.current_pos ≤ s.data_size := hv.2.2
  rw [mem_read_ret hv, mem_read_self hv]
  simp only [llama_memory_source.eof, decide_eq_true_eq]
  constructor
  · constructor
    · intro h0
      rcases Nat.min_eq_zero_iff.mp h0 with h1 | h1 <;> omega
    · intro hge
      have : s.data_size - s.current_pos = 0 := by omega
      rw [this]; exact Nat.min_eq_right (Nat.zero_le _)
  · intro hlt
    show s.current_pos + min size (s.data_size - s.current_pos) ≥ s.data_size
    have : min size (s.data_size - s.current_pos) = s.data_size - s.current_pos := by
      rcases Nat.le_total size (s.data_size - s.current_pos) with hc | hc
      · rw [Nat.min_eq_left hc] at hlt; omega
      · exact Nat.min_eq_right hc
    omega

/-- Witness of C17: the buffer `[0x10, 0x20, 0x30, 0x40]` after a seek to 3, a
read of 2 bytes (a short read of 1). -/
theorem C17_read_zero_iff_eof_witness :
    ([0x10, 0x20, 0x30, 0x40] : List uint8_t).length < SIZE_MOD ∧ (0 : Nat) < 2 ∧
    (let s := mem_run (llama_memory_source.ctor [0x10, 0x20, 0x30, 0x40]
        ([0x10, 0x20, 0x30, 0x40] : List uint8_t).length) [mem_call.seek 3 SEEK_SET];
      ((s.read [0, 0] 2).ret = 0 ↔ s.eof = true) ∧
        ((s.read [0, 0] 2).ret < 2 → (s.read [0, 0] 2).self.eof = true)) :=
  ⟨by unfold SIZE_MOD; norm_num, by decide,
    C17_read_zero_iff_eof [0x10, 0x20, 0x30, 0x40] (by unfold SIZE_MOD; norm_num)
      [mem_call.seek 3 SEEK_SET] [0, 0] 2 (by decide)⟩

/-! ## Reading a memory source in equal chunks -/

theorem mem_read_loop_succ (k fuel : Nat) (s : llama_memory_source) (buf : List uint8_t) :
    mem_read_loop k (fuel + 1) s buf =
      (if (s.read buf k).ret = 0 then some ([], (s.read buf k).self)
      else
        match mem_read_loop k fuel (s.read buf k).self (s.read buf k).buffer with
        | none => none
        | some (chunks, t) =>
          some (((s.read buf k).ret, (s.read buf k).buffer.take (s.read buf k).ret) :: chunks,
            t)) :=
  rfl

theorem ceil_div_zero (k : Nat) (hk : 0 < k) : (0 + k - 1) / k = 0 := by
  apply Nat.div_eq_of_lt
  omega

theorem ceil_div_step (k rem : Nat) (hk : 0 < k) (hrem : 0 < rem) :
    (rem - min k rem + k - 1) / k + 1 = (rem + k - 1) / k := by
  rcases Nat.le_total k rem with hle | hle
  · rw [Nat.min_eq_left hle]
    have h1 : rem - k + k - 1 = rem - 1 := by omega
    have h2 : rem + k - 1 = rem - 1 + k := by omega
    rw [h1, h2, Nat.add_div_right _ hk]
  · rw [Nat.min_eq_right hle]
    have h1 : rem - rem + k - 1 = 0 + k - 1 := by omega
    rw [h1, ceil_div_zero k hk]
    exact (Nat.div_eq_of_lt_le (by omega) (by omega)).symm

theorem mem_read_loop_total (k : Nat) (hk : 0 < k) :
    ∀ (fuel : Nat) (s : llama_memory_source) (buf : List uint8_t), mem_valid s →
      (s.data_size - s.current_pos + k - 1) / k < fuel →
      ∃ chunks t, mem_read_loop k fuel s buf = some (chunks, t) ∧
        chunks.length = (s.data_size - s.current_pos + k - 1) / k ∧
        (∀ c ∈ chunks, 0 < c.1 ∧ c.2.length = c.1) ∧
        (chunks.map Prod.snd).flatten = s.data.drop s.current_pos ∧
        (chunks.map Prod.fst).sum = s.data_size - s.current_pos ∧
        t.eof = true ∧ t.data_size = s.data_size := by
  intro fuel
  induction fuel with
  | zero => intro s buf _ h; exact absurd h (Nat.not_lt_zero _)
  | succ fuel ih =>
    intro s buf hv hfuel
    have hle : s.current_pos ≤ s.data_size := hv.2.2
    rw [mem_read_loop_succ, mem_read_ret hv, mem_read_self hv, mem_read_buffer hv]
    by_cases h0 : min k (s.data_size - s.current_pos) = 0
    · have hrem : s.data_size - s.current_pos = 0 := by
        rcases Nat.min_eq_zero_iff.mp h0 with h | h
        · omega
        · exact h
      refine ⟨[],
        { s with
          current_pos := s.current_pos + min k (s.data_size - s.current_pos) },
        by rw [if_pos h0], ?_, ?_, ?_, ?_, ?_, rfl⟩
      · rw [hrem, ceil_div_zero k hk]; rfl
      · intro c hc; cases hc
      · rw [List.drop_eq_nil_of_le (by rw [hv.1]; omega)]; rfl
      · rw [hrem]; rfl
      · simp only [llama_memory_source.eof, decide_eq_true_eq]
        show s.current_pos + min k (s.data_size - s.current_pos) ≥ s.data_size
        omega
    · have hrem : 0 < s.data_size - s.current_pos := by
        rcases Nat.eq_zero_or_pos (s.data_size - s.current_pos) with h | h
        · rw [h] at h0; exact absurd (Nat.min_eq_right (Nat.zero_le _)) h0
        · exact h
      have hn : min k (s.data_size - s.current_pos) ≤ s.data_size - s.current_pos :=
        Nat.min_le_right _ _
      have hstep := ceil_div_step k (s.data_size - s.current_pos) hk hrem
      have hsub : s.data_size - (s.current_pos + min k (s.data_size - s.current_pos)) =
          s.data_size - s.current_pos - min k (s.data_size - s.current_pos) := by omega
      have hv2 : mem_valid
          { s with
            current_pos := s.current_pos + min k (s.data_size - s.current_pos) } :=
        ⟨hv.1, hv.2.1, by show s.current_pos + _ ≤ s.data_size; omega⟩
      obtain ⟨chunks, t, hloop, hlen, hpos, hcat, hsum, heof, hsize⟩ := ih
        { s with
          current_pos := s.current_pos + min k (s.data_size - s.current_pos) }
        (memcpy buf (s.data.drop s.current_pos) (min k (s.data_size - s.current_pos)))
        hv2
        (by show (s.data_size - (s.current_pos + _) + k - 1) / k < fuel
            rw [hsub]; omega)
      have hlen2 : chunks.length =
          (s.data_size - s.current_pos - min k (s.data_size - s.current_pos) + k - 1) / k := by
        rw [hlen]; show (s.data_size - (s.current_pos + _) + k - 1) / k = _; rw [hsub]
      have hcat2 : (chunks.map Prod.snd).flatten = s.data.drop
          (s.current_pos + min k (s.data_size - s.current_pos)) := hcat
      have hsum2 : (chunks.map Prod.fst).sum = s.data_size -
          (s.current_pos + min k (s.data_size - s.current_pos)) := hsum
      have htake : (memcpy buf (s.data.drop s.current_pos)
          (min k (s.data_size - s.current_pos))).take (min k (s.data_size - s.current_pos)) =
          (s.data.drop s.current_pos).take (min k (s.data_size - s.current_pos)) :=
        memcpy_take _ _ _ (by rw [List.length_drop, hv.1]; exact hn)
      refine ⟨(min k (s.data_size - s.current_pos),
          (memcpy buf (s.data.drop s.current_pos)
            (min k (s.data_size - s.current_pos))).take
              (min k (s.data_size - s.current_pos))) :: chunks, t, ?_, ?_, ?_, ?_, ?_, heof,
          hsize⟩
      · rw [if_neg h0]
        simp only [hloop]
      · rw [List.length_cons, hlen2]; exact hstep
      · intro c hc
        rcases List.mem_cons.mp hc with hc | hc
        · subst hc
          refine ⟨Nat.pos_of_ne_zero h0, ?_⟩
          show ((memcpy buf (s.data.drop s.current_pos)
            (min k (s.data_size - s.current_pos))).take _).length = _
          rw [htake, List.length_take, List.length_drop, hv.1]
          exact Nat.min_eq_left hn
        · exact hpos c hc
      · simp only [List.map_cons, List.flatten_cons]
        rw [hcat2, htake]
        exact take_append_drop_add _ _ _
      · simp only [List.map_cons, List.sum_cons]
        rw [hsum2]
        omega

theorem mem_read_loop_short (k : Nat) (hk : 0 < k) :
    ∀ (fuel : Nat) (s : llama_memory_source) (buf : List uint8_t), mem_valid s →
      fuel ≤ (s.data_size - s.current_pos + k - 1) / k →
      mem_read_loop k fuel s buf = none := by
  intro fuel
  induction fuel with
  | zero => intro s buf _ _; rfl
  | succ fuel ih =>
    intro s buf hv hfuel
    have hle : s.current_pos ≤ s.data_size := hv.2.2
    have hrem : 0 < s.data_size - s.current_pos := by
      rcases Nat.eq_zero_or_pos (s.data_size - s.current_pos) with h | h
      · rw [h, ceil_div_zero k hk] at hfuel; omega
      · exact h
    have hn : min k (s.data_size - s.current_pos) ≤ s.data_size - s.current_pos :=
      Nat.min_le_right _ _
    have h0 : ¬ min k (s.data_size - s.current_pos) = 0 := by
      intro h
      rcases Nat.min_eq_zero_iff.mp h with h | h <;> omega
    have hstep := ceil_div_step k (s.data_size - s.current_pos) hk hrem
    have hsub : s.data_size - (s.current_pos + min k (s.data_size - s.current_pos)) =
        s.data_size - s.current_pos - min k (s.data_size - s.current_pos) := by omega
    have hv2 : mem_valid
        { s with
          current_pos := s.current_pos + min k (s.data_size - s.current_pos) } :=
      ⟨hv.1, hv.2.1, by show s.current_pos + _ ≤ s.data_size; omega⟩
    have hnone := ih
      { s with
        current_pos := s.current_pos + min k (s.data_size - s.current_pos) }
      (memcpy buf (s.data.drop s.current_pos) (min k (s.data_size - s.current_pos)))
      hv2
      (by show fuel ≤ (s.data_size - (s.current_pos + _) + k - 1) / k
          rw [hsub]; omega)
    rw [mem_read_loop_succ, mem_read_ret hv, mem_read_self hv, mem_read_buffer hv, if_neg h0]
    simp only [hnone]

/-- C14: on a freshly constructed source over a buffer of length `L`, the loop
of `read(buf, k)` calls with `k > 0` ends: with room for more than `ceil(L / k)`
reads it stops after exactly `ceil(L / k)` non-empty reads and one empty read,
and with room for no more than `ceil(L / k)` reads it has not stopped; the
chunks delivered, concatenated, are the whole buffer, the returned counts sum
to `size()`, and `eof()` is true at the end. -/
theorem C14_chunked_read (buffer : List uint8_t) (h : buffer.length < SIZE_MOD) (k : Nat)
    (hk : 0 < k) (buf : List uint8_t) :
    (∀ fuel : Nat, (buffer.length + k - 1) / k < fuel →
      ∃ chunks t,
        mem_read_loop k fuel (llama_memory_source.ctor buffer buffer.length) buf =
          some (chunks, t) ∧
        chunks.length = (buffer.length + k - 1) / k ∧
        (∀ c ∈ chunks, 0 < c.1 ∧ c.2.length = c.1) ∧
        (chunks.map Prod.snd).flatten = buffer ∧
        (chunks.map Prod.fst).sum = (llama_memory_source.ctor buffer buffer.length).size ∧
        t.eof = true) ∧
      (∀ fuel : Nat, fuel ≤ (buffer.length + k - 1) / k →
        mem_read_loop k fuel (llama_memory_source.ctor buffer buffer.length) buf = none) := by
  have hv := mem_valid_ctor buffer h
  constructor
  · intro fuel hfuel
    obtain ⟨chunks, t, hloop, hlen, hpos, hcat, hsum, heof, _⟩ :=
      mem_read_loop_total k hk fuel (llama_memory_source.ctor buffer buffer.length) buf hv hfuel
    exact ⟨chunks, t, hloop, hlen, hpos, hcat, hsum, heof⟩
  · intro fuel hfuel
    exact mem_read_loop_short k hk fuel (llama_memory_source.ctor buffer buffer.length) buf hv
      hfuel

/-- Witness of C14: the buffer `[0x10, 0x20, 0x30, 0x40, 0x50]` read in chunks of
2 bytes: three non-empty reads and one empty read. -/
theorem C14_chunked_read_witness :
    ([0x10, 0x20, 0x30, 0x40, 0x50] : List uint8_t).length < SIZE_MOD ∧ (0 : Nat) < 2 ∧
    (∃ chunks t,
        mem_read_loop 2 4 (llama_memory_source.ctor [0x10, 0x20, 0x30, 0x40, 0x50]
          ([0x10, 0x20, 0x30, 0x40, 0x50] : List uint8_t).length) [0, 0] = some (chunks, t) ∧
        chunks.length = 3 ∧
        (∀ c ∈ chunks, 0 < c.1 ∧ c.2.length = c.1) ∧
        (chunks.map Prod.snd).flatten = [0x10, 0x20, 0x30, 0x40, 0x50] ∧
        (chunks.map Prod.fst).sum = 5 ∧
        t.eof = true) ∧
    mem_read_loop 2 3 (llama_memory_source.ctor [0x10, 0x20, 0x30, 0x40, 0x50]
      ([0x10, 0x20, 0x30, 0x40, 0x50] : List uint8_t).length) [0, 0] = none :=
  ⟨by unfold SIZE_MOD; norm_num, by decide,
    (C14_chunked_read [0x10, 0x20, 0x30, 0x40, 0x50] (by unfold SIZE_MOD; norm_num) 2
      (by decide) [0, 0]).1 4 (by decide),
    (C14_chunked_read [0x10, 0x20, 0x30, 0x40, 0x50] (by unfold SIZE_MOD; norm_num) 2
      (by decide) [0, 0]).2 3 (by decide)⟩
